/-
Verification of the writ iterator/transform library.

Shallow embedding of the core iteration primitives and transform stages of
the repository: `safezip` and `chunker` from `writ/util.py`, the tuple
utilities `tuple_insert` / `tuple_remove`, the `Censor` transform
(`writ/transform/censor.py`), the `Extender` transform
(`writ/transform/extend.py`), `Prefetch` / `lazy_batched`
(`writ/transform/prefetch.py`) and the rejection sampler `RSampler`
(`writ/transform/rejection.py`).

Modelling conventions:
- Python iterators and numpy arrays become Lean `List`s; a "Pull" (one tuple
  served by a stage) becomes a `List` of positions.
- Fallible Python code (raised exceptions) returns `Except String`;
  generators that yield some values and then raise are modelled as the list
  of yielded values paired with an end marker.
- Python floats become `ℚ`; the decimal literals exercised by the claims are
  exact one-or-two-digit decimals whose comparisons agree between IEEE
  doubles and exact rationals.
- numpy random generators are abstracted as the lists of uniform variates
  they would produce.
-/
import Mathlib

namespace Writ

/-- Python `l[i]` indexing on a list/tuple, with negative-index semantics:
a negative index counts from the end; out-of-range raises IndexError. -/
def pyIndex {α : Type} (l : List α) (i : Int) : Except String α :=
  let eff : Int := if i < 0 then i + l.length else i
  if 0 ≤ eff then
    match l[eff.toNat]? with
    | some v => Except.ok v
    | none => Except.error "tuple index out of range"
  else Except.error "tuple index out of range"

/-- Python `list.insert(i, x)`: a nonnegative index is clamped to the length,
a negative index counts from the end and is clamped to 0. -/
def pyListInsert {α : Type} (l : List α) (i : Int) (v : α) : List α :=
  let eff : Nat := if 0 ≤ i then min i.toNat l.length else ((l.length : Int) + i).toNat
  l.take eff ++ v :: l.drop eff

/-- `util.tuple_insert`: a negative position is first mapped to
`len + position + 1` (this deliberately differs from `list.insert`, see the
docstring note in util.py), then the value is inserted. -/
def tuple_insert {α : Type} (tup : List α) (value : α) (position : Int) : List α :=
  let p : Int := if position < 0 then (tup.length : Int) + position + 1 else position
  pyListInsert tup p value

/-- `util.tuple_remove`: `del l_form[position]` with Python index semantics; a
negative position counts from the end, out-of-range raises IndexError. -/
def tuple_remove {α : Type} (tup : List α) (position : Int) : Except String (List α) :=
  let eff : Int := if position < 0 then position + tup.length else position
  if 0 ≤ eff ∧ eff < (tup.length : Int) then
    Except.ok (tup.take eff.toNat ++ tup.drop (eff.toNat + 1))
  else Except.error "list assignment index out of range"

/-- How a run of `util.safezip` ends: either a clean StopIteration or the
ValueError raised when the strict (True-masked) streams disagree. -/
inductive ZipEnd : Type where
  | clean : ZipEnd
  | syncError : ZipEnd
deriving DecidableEq

/-- The manual while-loop of `util.safezip`. Each round pops one element from
every stream; if all pops succeed the tuple of results is yielded; otherwise,
if any True-masked stream succeeded, a ValueError is raised; otherwise the
iteration stops cleanly. Exhausted list iterators keep failing, so a round on
the tails models re-nexting. `fuel` bounds the number of rounds; the caller
passes one more than the total element count, which is enough whenever at
least one stream is present (with no streams Python loops forever). -/
def safezipAux {α : Type} (mask : List Bool) : Nat → List (List α) → List (List α) × ZipEnd
  | 0, _ => ([], ZipEnd.clean)
  | fuel + 1, its =>
    let successes := its.map (fun g => !g.isEmpty)
    if successes.all (fun s => s) then
      let results := its.filterMap List.head?
      let rest := safezipAux mask fuel (its.map List.tail)
      (results :: rest.1, rest.2)
    else if (successes.zip mask).any (fun p => p.1 && p.2) then
      ([], ZipEnd.syncError)
    else
      ([], ZipEnd.clean)

/-- `util.safezip(*args, mask=mask)`: checks the mask length (a `None` mask
means all-strict), then runs the round loop. The result is the list of yielded
tuples together with how the iteration ended. -/
def safezip {α : Type} (args : List (List α)) (mask : Option (List Bool)) :
    Except String (List (List α) × ZipEnd) :=
  let m := match mask with
    | none => List.replicate args.length true
    | some m => m
  if m.length ≠ args.length then Except.error "Invalid mask."
  else Except.ok (safezipAux m ((args.map List.length).sum + 1) args)

/-- Python `range(0, stop, step)` for `step ≥ 1`, as a list. -/
def pyRange (stop step : Nat) : List Nat :=
  List.range' 0 ((stop + step - 1) / step) step

/-- Python `data[start:stop:step]` for nonnegative bounds and `step ≥ 1`:
the elements at indices `start, start+step, ...` below both `stop` and the
length. -/
def pySliceStride {α : Type} (data : List α) (start stop step : Nat) : List α :=
  (List.range' start ((stop - start + step - 1) / step) step).filterMap
    (fun i => data[i]?)

/-- Python `data[::step]`. -/
def pyStride {α : Type} (data : List α) (step : Nat) : List α :=
  pySliceStride data 0 data.length step

/-- How the `util.chunker` generator ends: cleanly, or with the uncaught
IndexError from `inds[chunk_index * size]` (that lookup sits outside the
try/except of the loop body). -/
inductive ChunkEnd : Type where
  | clean : ChunkEnd
  | indexError : ChunkEnd
deriving DecidableEq

/-- The serving loop of `util.chunker` for a bounded `size`: at step
`chunk_index` the strided index domain `inds` is indexed at
`chunk_index * size` (an uncaught IndexError if out of range) and at
`(chunk_index + 1) * size` (a caught IndexError: the chunk then ends at
`len(data)` and the loop stops after yielding it). `fuel` bounds the number of
steps; `chunker` passes `inds.length + 1`, enough for any `size ≥ 1`. -/
def chunkerLoop {α : Type} (data : List α) (size stride : Nat) (inds : List Nat) :
    Nat → Nat → List (List α) × ChunkEnd
  | 0, _ => ([], ChunkEnd.clean)
  | fuel + 1, chunk_index =>
    match inds[chunk_index * size]? with
    | none => ([], ChunkEnd.indexError)
    | some start =>
      match inds[(chunk_index + 1) * size]? with
      | some stop =>
        let rest := chunkerLoop data size stride inds fuel (chunk_index + 1)
        (pySliceStride data start stop stride :: rest.1, rest.2)
      | none =>
        ([pySliceStride data start data.length stride], ChunkEnd.clean)

/-- `util.chunker(data, size, stride)`: the yielded chunks together with how
the generator ends. `size = none` models `size=None` (one full strided
slice). -/
def chunker {α : Type} (data : List α) (size : Option Nat) (stride : Nat) :
    List (List α) × ChunkEnd :=
  let inds := pyRange data.length stride
  match size with
  | none => ([pySliceStride data 0 data.length stride], ChunkEnd.clean)
  | some s => chunkerLoop data s stride inds (inds.length + 1) 0

/-- `_indices_to_mask` of rejection.py (censor.py uses the same function under
the name `indices_to_mask`): booleans marking which of the first `max_size`
positions occur in `indices`; a `None` collection preserves everything. -/
def indices_to_mask (indices : Option (List Nat)) (max_size : Nat) : List Bool :=
  match indices with
  | none => (List.range max_size).map (fun _ => true)
  | some idx => (List.range max_size).map (fun x => idx.contains x)

/-- The pairing loop at the end of `censor._mask_to_slices`: consecutive
change events are paired into `slice(start, stop)` intervals; a start without
a matching end closes at `size`. -/
def pairIntervals (size : Nat) : List Nat → List (Nat × Nat)
  | [] => []
  | [start] => [(start, size)]
  | start :: stop :: rest => (start, stop) :: pairIntervals size rest

/-- `censor._mask_to_slices`: the transition points of the boolean mask
(`np.diff` is nonzero exactly where consecutive entries differ, shifted by
one), aligned to begin with the start of a True region, then paired into
half-open intervals covering the maximal contiguous True runs. -/
def _mask_to_slices (mask : List Bool) : List (Nat × Nat) :=
  if mask.length = 0 then []
  else
    let start_type := mask.headD false
    let size := mask.length
    let events := ((List.range (size - 1)).filter
        (fun i => mask.getD i false != mask.getD (i + 1) false)).map (fun x => x + 1)
    let aligned_events := if start_type then 0 :: events else events
    pairIntervals size aligned_events

/-- Python `l[start:stop]` for the nonnegative slices produced by
`_mask_to_slices`. -/
def pySlice1 {α : Type} (l : List α) (s : Nat × Nat) : List α :=
  (l.take s.2).drop s.1

/-- `Censor.__iter__` in the configuration the claims exercise
(`input_index=None`, `discard_input=False`): per source Pull the vectorized
test yields a boolean mask, the mask is split into contiguous-run slices, and
one Pull per run is emitted in which `apply_to`-governed positions are sliced
to the run and other positions pass through unchanged. The inner
`safezip(pull, to_include_mask)` of the source always pairs lists of equal
length (the mask is built with `len(pull)`), so it is a plain zip here. -/
def censorIter {α : Type} (censor : List (List α) → List Bool)
    (apply_to : Option (List Nat)) (source : List (List (List α))) :
    List (List (List α)) :=
  source.flatMap (fun pull =>
    let mask := censor pull
    let to_include_mask := indices_to_mask apply_to pull.length
    (_mask_to_slices mask).map (fun s =>
      (pull.zip to_include_mask).map
        (fun vi => if vi.2 then pySlice1 vi.1 s else vi.1)))

/-- The configuration state stored by `Censor.__init__` (the selector is
`None` or an integer; the slice variant of the source is not exercised by the
claims). -/
structure CensorConfig : Type where
  input_index : Option Int
  discard_input : Bool
deriving DecidableEq

/-- `Censor.__init__`: plain attribute assignments. The assignment
`self.discard_input = discard_input` writes an ordinary attribute; the
validating `remove_input` property defined further down censor.py is never
invoked, so no combination of arguments raises at construction time. -/
def censorInit (input_index : Option Int) (discard_input : Bool) :
    Except String CensorConfig :=
  Except.ok { input_index := input_index, discard_input := discard_input }

/-- The `remove_input` property setter shared by extend.py and censor.py: it
raises ValueError when the value is True and the selector is not an integer.
`Extender.__init__` assigns `self.remove_input = remove_input` and therefore
runs this check at construction time. -/
def extenderInitCheck (input_index : Option Int) (remove_input : Bool) :
    Except String Unit :=
  if remove_input = true ∧ input_index = none then
    Except.error "remove_input cannot be True if input_index is not an integer."
  else Except.ok ()

/-- Dynamic scalar values of the Pulls fed to `Extender` in the claims:
integers and strings. -/
inductive Val : Type where
  | int : Int → Val
  | str : String → Val
deriving DecidableEq

/-- The value handed to the input callable of `Extender`: either the whole
Pull (selector `None`) or a single position (integer selector). -/
inductive PullArg : Type where
  | whole : List Val → PullArg
  | item : Val → PullArg
deriving DecidableEq

/-- `extend._callable_mapping`: wraps a mapping as a one-argument function
that evaluates by indexing; a missing key propagates the lookup failure. -/
def _callable_mapping (mapping : List (PullArg × Val)) :
    PullArg → Except String Val :=
  fun argument =>
    match mapping.lookup argument with
    | some v => Except.ok v
    | none => Except.error "KeyError"

/-- `Extender.__iter__`: per Pull, select the extender input (`None` passes
the whole Pull), evaluate the extender, optionally remove the input position,
and insert the new value at `placement_index`. `remove_input` with a `None`
selector would call `tuple_remove(pull, None)`, a TypeError (that
combination is rejected at construction, see `extenderInitCheck`). -/
def extenderIter (extender : PullArg → Except String Val) (input_index : Option Int)
    (remove_input : Bool) (placement_index : Int) (source : List (List Val)) :
    Except String (List (List Val)) :=
  source.mapM (fun pull => do
    let to_pass ← match input_index with
      | none => Except.ok (PullArg.whole pull)
      | some i => Except.map PullArg.item (pyIndex pull i)
    let new ← extender to_pass
    let pull2 ← match remove_input, input_index with
      | true, some i => tuple_remove pull i
      | true, none => Except.error "TypeError: list indices must be integers"
      | false, _ => Except.ok pull
    Except.ok (tuple_insert pull2 new placement_index))

/-- `Prefetch.__init__` on a list source: `fetch < 1` raises; otherwise
`fetch` items are drawn into the `saved` buffer, raising ValueError if the
source runs out first. The state is the buffer plus the untouched rest of the
source. -/
def prefetchInit {α : Type} (source : List α) (fetch : Nat) :
    Except String (List α × List α) :=
  if fetch < 1 then Except.error "fetch must be at least 1."
  else if source.length < fetch then Except.error "Prefetch failed."
  else Except.ok (source.take fetch, source.drop fetch)

/-- A full iteration of a `Prefetch`: the buffered items in FIFO order, then
the remaining source; afterwards `used` is True. -/
def prefetchDrain {α : Type} (p : List α × List α) : List α :=
  p.1 ++ p.2

/-- One round of the `lazy_batched` while loop: on a non-first round the
previous batch must report `used == True` or a ValueError is raised; then a
`Prefetch(window, fetch=1)` is built, whose construction failure (empty
window) ends batching cleanly (`none`); otherwise the batch is served (shown
here fully drained). -/
def lazyBatchedStep {α : Type} (first_iteration g_used : Bool) (window : List α) :
    Except String (Option (List α)) :=
  if first_iteration = false ∧ g_used = false then
    Except.error "Will not serve next batch until previous batch is done."
  else
    match prefetchInit window 1 with
    | Except.error _ => Except.ok none
    | Except.ok p => Except.ok (some (prefetchDrain p))

/-- `lazy_batched` under the well-sequenced consumption discipline (each
served batch fully drained before the next request, so `g.used` is True on
every non-first round): each round takes an `islice(it, size)` window off the
shared iterator, modelled by take/drop on the remaining list. `fuel` bounds
the rounds; `lazy_batched` passes `length + 1`, enough for `size ≥ 1`. -/
def lazyBatchedRun {α : Type} (size : Nat) : Nat → List α → List (List α)
  | 0, _ => []
  | fuel + 1, remaining =>
    match lazyBatchedStep false true (remaining.take size) with
    | Except.error _ => []
    | Except.ok none => []
    | Except.ok (some batch) => batch :: lazyBatchedRun size fuel (remaining.drop size)

/-- `lazy_batched(target, size)`: rejects `size < 1`, then serves batches as
in `lazyBatchedRun`. -/
def lazy_batched {α : Type} (target : List α) (size : Nat) :
    Except String (List (List α)) :=
  if size < 1 then Except.error "size must be at least one."
  else Except.ok (lazyBatchedRun size (target.length + 1) target)

/-- `RSampler._tol = numpy.finfo(float).eps`, the float64 machine epsilon. -/
def floatEps : ℚ := mkRat 1 4503599627370496

/-- Boolean-mask indexing `g[mask]` on arrays: keep the entries whose mask
bit is True (numpy additionally requires equal lengths; the claims only
exercise equal lengths). -/
def boolIndex {α : Type} (values : List α) (mask : List Bool) : List α :=
  (values.zip mask).filterMap (fun p => if p.2 then some p.1 else none)

/-- `RSampler._sample_mask` with the RNG abstracted: `variates` stands for
the array `self._rng.random(size=len(ratios))`. With `check_bound` the
maximum ratio is compared against `1 + eps` (numpy `.max()` of an empty array
raises); the retention mask keeps an element iff its variate is strictly
below its ratio. -/
def _sample_mask (check_bound : Bool) (variates ratios : List ℚ) :
    Except String (List Bool) :=
  if check_bound then
    match ratios.max? with
    | none => Except.error "zero-size array reduction"
    | some m =>
      if 1 + floatEps < m then
        Except.error "Found rejection sampling weight above one."
      else Except.ok (List.zipWith (fun v r => decide (v < r)) variates ratios)
  else Except.ok (List.zipWith (fun v r => decide (v < r)) variates ratios)

/-- The `drop_empty` test `0 == max(len(x) for x in derived)` of
`RSampler.__iter__`: suppression (`ok none`) when the max length is zero,
emission otherwise, and the ValueError Python `max` raises when `derived`
has no entries at all. -/
def dropEmptyGuard {α : Type} (d : List (List α)) :
    Except String (Option (List (List α))) :=
  match (d.map List.length).max? with
  | none => Except.error "max() arg is an empty sequence"
  | some m => if 0 = m then Except.ok none else Except.ok (some d)

/-- The body of `RSampler.__iter__` for one source Pull: compute the sample
mask from the weights position, optionally drop the weights position, apply
the mask to the `apply_to`-governed positions (the inner
`safezip(pull, to_include_mask)` again pairs equal-length lists), and
suppress the Pull when `drop_empty` is set and `max(len(x) for x in derived)`
is zero. That max runs over every derived entry, pass-through positions
included, and on a zero-arity derived tuple Python `max` over the empty
generator raises ValueError (reached only when `drop_empty` is set, since
`and` short-circuits). -/
def rsamplerStep (weights_index : Int) (apply_to : Option (List Nat))
    (discard_weights check_bound drop_empty : Bool)
    (variates : List ℚ) (pull : List (List ℚ)) :
    Except String (Option (List (List ℚ))) :=
  match pyIndex pull weights_index with
  | Except.error e => Except.error e
  | Except.ok weights =>
    match _sample_mask check_bound variates weights with
    | Except.error e => Except.error e
    | Except.ok mask =>
      match (if discard_weights then tuple_remove pull weights_index
             else Except.ok pull) with
      | Except.error e => Except.error e
      | Except.ok pull2 =>
        let to_include_mask := indices_to_mask apply_to pull2.length
        let derived := (pull2.zip to_include_mask).map
            (fun vi => if vi.2 then boolIndex vi.1 mask else vi.1)
        if drop_empty = true then dropEmptyGuard derived
        else Except.ok (some derived)

/-- `RSampler.__iter__` over a whole source: one variate array per Pull; the
first raised error aborts the iteration, suppressed Pulls are skipped. -/
def rsamplerIter (weights_index : Int) (apply_to : Option (List Nat))
    (discard_weights check_bound drop_empty : Bool)
    (variates : List (List ℚ)) (source : List (List (List ℚ))) :
    Except String (List (List (List ℚ))) := do
  let emitted ← (source.zip variates).mapM
      (fun pv => rsamplerStep weights_index apply_to discard_weights check_bound
        drop_empty pv.2 pv.1)
  Except.ok (emitted.filterMap id)

/-- An index is below the ceiling `(L + S - 1) / S` of the strided domain
exactly when the corresponding strided offset is inside the data. -/
theorem lt_ceilDiv_iff {S i L : Nat} (hS : 0 < S) :
    i < (L + S - 1) / S ↔ S * i < L := by
  rw [Nat.lt_iff_add_one_le, Nat.le_div_iff_mul_le hS, Nat.add_mul, Nat.one_mul,
    Nat.mul_comm i S]
  omega

/-- Splitting a strided slice at a strided offset: the chunk up to `S * b`
followed by the tail from `S * b` is the whole tail from `S * a`. -/
theorem pySliceStride_split {α : Type} (data : List α) {S a b : Nat} (hS : 0 < S)
    (hab : a ≤ b) (hbL : S * b ≤ data.length) :
    pySliceStride data (S * a) (S * b) S ++ pySliceStride data (S * b) data.length S
      = pySliceStride data (S * a) data.length S := by
  unfold pySliceStride
  rw [← List.filterMap_append]
  congr 1
  have hmul : S * b - S * a = S * (b - a) := (mul_tsub S b a).symm
  have c1 : (S * b - S * a + S - 1) / S = b - a := by
    rw [hmul]
    have e : S * (b - a) + S - 1 = S - 1 + S * (b - a) := by omega
    rw [e, Nat.add_mul_div_left _ _ hS, Nat.div_eq_of_lt (by omega)]
    omega
  have c2 : S * a + S * (b - a) = S * b := by
    rw [← Nat.mul_add]
    congr 1
    omega
  have c3 : (data.length - S * a + S - 1) / S
      = (b - a) + (data.length - S * b + S - 1) / S := by
    have hc2 : S * (b - a) + S * a = S * b := by rw [Nat.add_comm]; exact c2
    have e1 : data.length - S * a + S - 1
        = (data.length - S * b + S - 1) + S * (b - a) := by omega
    rw [e1, Nat.add_mul_div_left _ _ hS, Nat.add_comm]
  rw [c1, c3]
  have happ := List.range'_append (S * a) (b - a)
    ((data.length - S * b + S - 1) / S) S
  rw [c2] at happ
  rw [happ, Nat.add_comm]

/-- The chunk-serving loop of `chunker` flattens to the strided tail starting
at the current chunk offset, for any fuel at least the number of remaining
strided indices. -/
theorem chunkerLoop_flatten {α : Type} (data : List α) (C S : Nat)
    (hS : 0 < S) (hC : 0 < C) :
    ∀ (fuel ci : Nat),
      (pyRange data.length S).length - ci * C ≤ fuel →
      ci * C < (pyRange data.length S).length →
      (chunkerLoop data C S (pyRange data.length S) fuel ci).1.flatten
        = pySliceStride data (S * (ci * C)) data.length S := by
  intro fuel
  induction fuel with
  | zero => intro ci h1 h2; omega
  | succ fuel ih =>
    intro ci h1 h2
    have hn : (pyRange data.length S).length = (data.length + S - 1) / S := by
      simp [pyRange, List.length_range']
    have hstart : (pyRange data.length S)[ci * C]? = some (S * (ci * C)) := by
      unfold pyRange
      rw [List.getElem?_range' _ _ (by rw [hn] at h2; exact h2)]
      simp
    have hsucc : (ci + 1) * C = ci * C + C := by rw [Nat.add_mul, Nat.one_mul]
    by_cases hstop : (ci + 1) * C < (pyRange data.length S).length
    · have hstopv : (pyRange data.length S)[(ci + 1) * C]?
          = some (S * ((ci + 1) * C)) := by
        unfold pyRange
        rw [List.getElem?_range' _ _ (by rw [hn] at hstop; exact hstop)]
        simp
      simp only [chunkerLoop, hstart, hstopv, List.flatten_cons]
      rw [ih (ci + 1) (by omega) hstop]
      exact pySliceStride_split data hS (by omega)
        (le_of_lt ((lt_ceilDiv_iff hS).mp (by rw [hn] at hstop; exact hstop)))
    · have hstopn : (pyRange data.length S)[(ci + 1) * C]? = none :=
        List.getElem?_eq_none (by omega)
      simp only [chunkerLoop, hstart, hstopn, List.flatten_cons, List.flatten_nil,
        List.append_nil]

/-- A left max-fold of naturals is zero exactly when the seed and every
element are zero. -/
theorem foldl_max_eq_zero {l : List Nat} {a : Nat} :
    l.foldl max a = 0 ↔ a = 0 ∧ ∀ x ∈ l, x = 0 := by
  induction l generalizing a with
  | nil => simp
  | cons b bs ih =>
    rw [List.foldl_cons, ih]
    constructor
    · rintro ⟨hab, hxs⟩
      have hm := Nat.max_eq_zero_iff.mp hab
      refine ⟨hm.1, fun x hx => ?_⟩
      rcases List.mem_cons.mp hx with rfl | hx
      · exact hm.2
      · exact hxs x hx
    · rintro ⟨ha, hxs⟩
      exact ⟨Nat.max_eq_zero_iff.mpr ⟨ha, hxs b (List.mem_cons_self b bs)⟩,
        fun x hx => hxs x (List.mem_cons_of_mem b hx)⟩

/-- The `drop_empty` guard of `RSampler.__iter__` suppresses (`ok none`)
exactly when the derived tuple has at least one entry and every entry is
empty; on a zero-arity derived tuple the guard itself raises (`max()` over an
empty generator). -/
theorem drop_guard_spec {α : Type} (d : List (List α)) :
    dropEmptyGuard d = Except.ok none ↔ d ≠ [] ∧ ∀ x ∈ d, x = [] := by
  cases d with
  | nil =>
    rw [show dropEmptyGuard ([] : List (List α))
        = Except.error "max() arg is an empty sequence" from rfl]
    simp
  | cons c cs =>
    rw [show dropEmptyGuard (c :: cs)
        = if 0 = (cs.map List.length).foldl max c.length then Except.ok none
          else Except.ok (some (c :: cs)) from rfl]
    split_ifs with h
    · constructor
      · intro _
        have hz := foldl_max_eq_zero.mp h.symm
        refine ⟨List.cons_ne_nil c cs, fun x hx => ?_⟩
        rcases List.mem_cons.mp hx with rfl | hx
        · exact List.length_eq_zero.mp hz.1
        · exact List.length_eq_zero.mp
            (hz.2 x.length (List.mem_map_of_mem List.length hx))
      · intro _
        rfl
    · constructor
      · intro hcon
        exact absurd hcon (by simp)
      · rintro ⟨-, hall⟩
        refine (h ?_).elim
        symm
        rw [foldl_max_eq_zero]
        refine ⟨List.length_eq_zero.mpr (hall c (List.mem_cons_self c cs)), ?_⟩
        intro x hx
        rcases List.mem_map.mp hx with ⟨y, hy, rfl⟩
        exact List.length_eq_zero.mpr (hall y (List.mem_cons_of_mem c hy))

/-- One round of the `drop_empty` branch pair: with `drop_empty` set the
guard decides, without it the derived tuple is always emitted; suppression
on the left corresponds exactly to a non-zero-arity all-empty emission on
the right. -/
theorem drop_branch_iff {α : Type} (d : List (List α)) :
    (if true = true then dropEmptyGuard d else Except.ok (some d))
      = Except.ok none
    ↔ ∃ d2, (if false = true then dropEmptyGuard d else Except.ok (some d))
          = Except.ok (some d2) ∧ d2 ≠ [] ∧ ∀ x ∈ d2, x = [] := by
  rw [if_pos rfl, if_neg (by simp), drop_guard_spec]
  constructor
  · rintro ⟨hne, hall⟩
    exact ⟨d, rfl, hne, hall⟩
  · rintro ⟨d2, hd, hne, hall⟩
    simp only [Except.ok.injEq, Option.some.injEq] at hd
    subst hd
    exact ⟨hne, hall⟩

/-- Removing the element just inserted at position `k` restores the list. -/
theorem remove_insert_at {α : Type} (t : List α) (v : α) (k : Nat)
    (hk : k ≤ t.length) :
    (t.take k ++ v :: t.drop k).take k ++ (t.take k ++ v :: t.drop k).drop (k + 1)
      = t := by
  have hA : (t.take k).length = k := by rw [List.length_take]; omega
  rw [List.take_left' hA]
  have hA1 : (t.take k ++ [v]).length = k + 1 := by simp [hA]
  have hsplit : t.take k ++ v :: t.drop k = (t.take k ++ [v]) ++ t.drop k := by simp
  rw [hsplit, List.drop_left' hA1, List.take_append_drop]

/-- The element found at position `k` right after inserting at `k` is the
inserted value. -/
theorem getElem_insert_at {α : Type} (t : List α) (v : α) (k : Nat)
    (hk : k ≤ t.length) :
    (t.take k ++ v :: t.drop k)[k]? = some v := by
  have hA : (t.take k).length = k := by rw [List.length_take]; omega
  rw [List.getElem?_append_right (by omega)]
  simp [hA]

instance {ε α : Type} [DecidableEq ε] [DecidableEq α] : DecidableEq (Except ε α) :=
  fun x y =>
    match x, y with
    | Except.ok a, Except.ok b =>
      if h : a = b then Decidable.isTrue (by rw [h])
      else Decidable.isFalse (by simp [h])
    | Except.error a, Except.error b =>
      if h : a = b then Decidable.isTrue (by rw [h])
      else Decidable.isFalse (by simp [h])
    | Except.ok _, Except.error _ => Decidable.isFalse (by simp)
    | Except.error _, Except.ok _ => Decidable.isFalse (by simp)

/-- C1: evaluating `safezip` on the inputs of the claim. The first conjunct
confirms the strict half of the claim: `safezip([1,2,3], [1,2],
mask=[True, True])` yields `(1,1)`, `(2,2)` and then raises the
synchronization ValueError. The second conjunct shows the non-strict half
fails on the code: with `mask=[True, False]` the run also ends in the
synchronization error after the two tuples, instead of stopping cleanly as
the claim (and the docstring of safezip) state, because the lopsided-round
test `any(x if y else False ...)` only asks whether some True-masked stream
succeeded, not whether a True-masked stream failed. -/
theorem safezip_mask_strictness :
    safezip [[1, 2, 3], [1, 2]] (some [true, true])
      = Except.ok ([[1, 1], [2, 2]], ZipEnd.syncError)
    ∧ safezip [[1, 2, 3], [1, 2]] (some [true, false])
      = Except.ok ([[1, 1], [2, 2]], ZipEnd.syncError) := by
  constructor <;> rfl

/-- C3: the Censor example of the claim. With the two-Pull rational source
and the test `x[0] < 0.7`, iteration emits exactly the four Pulls
`([0.6, 0.3],)`, `([0.1],)`, `([0.3],)`, `([0.6, 0.6, 0.6],)` in order:
retained elements are split into maximal contiguous runs per source Pull,
and `0.1` (end of the first source Pull) is not fused with `0.3` (start of
the second). Decimals are the exact rationals `mkRat k 10`. -/
theorem censor_adjacency_preservation :
    censorIter (fun pull => (pull.headD []).map (fun x => decide (x < mkRat 7 10)))
      none
      [[[mkRat 9 10, mkRat 9 10, mkRat 6 10, mkRat 3 10, mkRat 9 10, mkRat 1 10]],
       [[mkRat 3 10, mkRat 7 10, mkRat 8 10, mkRat 6 10, mkRat 6 10, mkRat 6 10]]]
    = [[[mkRat 6 10, mkRat 3 10]], [[mkRat 1 10]], [[mkRat 3 10]],
       [[mkRat 6 10, mkRat 6 10, mkRat 6 10]]] := by
  rfl

/-- C4: `chunker` on an empty sequence. With a bounded size the very first
loop step evaluates `inds[0]` on the empty strided index domain, an uncaught
IndexError: the generator yields no chunks but ends in an error rather than
cleanly, contradicting the claim. The unbounded (`size=None`) half of the
claim holds: exactly one empty slice is yielded. -/
theorem chunker_empty_input :
    chunker ([] : List Nat) (some 1) 1 = ([], ChunkEnd.indexError)
    ∧ chunker ([] : List Nat) none 1 = ([[]], ChunkEnd.clean) := by
  constructor <;> rfl

/-- C5: `Censor.__init__` performs no validation: constructing with
`discard_input=True` and `input_index=None` succeeds (the claim says it must
raise at construction time). For contrast, the same combination on
`Extender.__init__` does raise, because there the constructor assigns
through the validating `remove_input` property. -/
theorem censor_discard_input_unchecked :
    censorInit none true
      = Except.ok { input_index := none, discard_input := true }
    ∧ extenderInitCheck none true
      = Except.error
          "remove_input cannot be True if input_index is not an integer." := by
  constructor <;> rfl

/-- C7: `lazy_batched([1,2,3,4,5], size=2)` serves exactly the three
non-empty batches `[1,2]`, `[3,4]`, `[5]` (their concatenation is the source;
the fourth request finds an empty window, so `Prefetch` construction fails
and batching ends cleanly with no fourth batch), and requesting the next
batch while the previous one has `used == False` raises the sequencing
ValueError. -/
theorem lazy_batched_guard :
    lazy_batched [1, 2, 3, 4, 5] 2 = Except.ok [[1, 2], [3, 4], [5]]
    ∧ lazyBatchedStep false false ([3, 4] : List Nat)
      = Except.error "Will not serve next batch until previous batch is done." := by
  constructor <;> rfl

/-- C8: the rejection-sampling bound check. With `check_bound=True` a Pull
whose weights array contains `1.5 > 1 + eps` raises the bounds ValueError on
the first affected Pull; on the same input with `check_bound=False` the Pull
is served; and with `check_bound=False`, `_sample_mask` never raises for any
weights whatsoever — it always returns the retention mask. -/
theorem rsampler_bound_check :
    rsamplerIter (-1) none true true true [[mkRat 1 2]] [[[5], [mkRat 3 2]]]
      = Except.error "Found rejection sampling weight above one."
    ∧ rsamplerIter (-1) none true false true [[mkRat 1 2]] [[[5], [mkRat 3 2]]]
      = Except.ok [[[5]]]
    ∧ ∀ (variates ratios : List ℚ),
        _sample_mask false variates ratios
          = Except.ok (List.zipWith (fun v r => decide (v < r)) variates ratios) :=
  ⟨by with_unfolding_all decide, by with_unfolding_all decide, fun _ _ => rfl⟩

/-- C9: the Extender round trip of the claim. The mapping
`{'a': 10, 'b': 20}` is wrapped as a lookup function, the value at position 1
is fed to it, the input position is removed, and the new value is inserted at
the default end placement: the source `[(1,'a'), (2,'b')]` becomes exactly
`[(1,10), (2,20)]`. -/
theorem extender_round_trip :
    extenderIter
      (_callable_mapping
        [(PullArg.item (Val.str "a"), Val.int 10),
         (PullArg.item (Val.str "b"), Val.int 20)])
      (some 1) true (-1)
      [[Val.int 1, Val.str "a"], [Val.int 2, Val.str "b"]]
    = Except.ok [[Val.int 1, Val.int 10], [Val.int 2, Val.int 20]] := by
  rfl

/-- C2: the chunk/concatenate identity. For every sliceable sequence, every
chunk size `C ≥ 1` and every stride `S ≥ 1`, concatenating (flattening) in
order all chunks yielded by `chunker(data, C, stride=S)` gives exactly
`data[::S]`. -/
theorem chunker_concat_identity {α : Type} (data : List α) (C S : Nat)
    (hS : 1 ≤ S) (hC : 1 ≤ C) :
    (chunker data (some C) S).1.flatten = pyStride data S := by
  unfold chunker pyStride
  by_cases hn : 0 < (pyRange data.length S).length
  · have h0 : (0 : Nat) * C < (pyRange data.length S).length := by
      rw [Nat.zero_mul]; exact hn
    have h := chunkerLoop_flatten data C S hS hC
      ((pyRange data.length S).length + 1) 0 (by omega) h0
    rw [Nat.zero_mul, Nat.mul_zero] at h
    exact h
  · -- the strided index domain is empty, so the data is empty: the loop
    -- stops at once (with the uncaught IndexError) having yielded nothing,
    -- and the full strided slice is empty as well
    have hlen : (pyRange data.length S).length = (data.length + S - 1) / S := by
      simp [pyRange, List.length_range']
    have hz : (data.length + S - 1) / S = 0 := by omega
    have hL : data.length = 0 := by
      have := (Nat.div_eq_zero_iff (show 0 < S by omega)).mp hz
      omega
    have hdata : data = [] := List.length_eq_zero.mp hL
    subst hdata
    have hind : (pyRange (List.length ([] : List α)) S)[(0 : Nat) * C]? = none :=
      List.getElem?_eq_none (by omega)
    simp only [chunkerLoop, hind, List.flatten_nil]
    simp [pySliceStride, List.filterMap_eq_nil_iff]

/-- C2, witness: the identity instantiated at `data = list(range(23))`,
chunk size 4, stride 3. -/
theorem chunker_concat_identity_witness :
    ((1 : Nat) ≤ 3 ∧ (1 : Nat) ≤ 4)
    ∧ (chunker (List.range 23) (some 4) 3).1.flatten = pyStride (List.range 23) 3 :=
  ⟨by decide, chunker_concat_identity (List.range 23) 4 3 (by decide) (by decide)⟩

/-- C6, counterexample: a Pull in which the retention mask empties the single
`apply_to`-governed position (weights are 0, so no variate is below its
weight) but a non-governed pass-through position `[7]` is non-empty. The
claim says the Pull must be suppressed regardless of the pass-through
lengths; the code emits it, because the `drop_empty` test takes the max
length over every derived entry, pass-through positions included. -/
theorem rsampler_drop_empty_cex :
    rsamplerStep (-1) (some [0]) true true true [mkRat 1 2, mkRat 1 2]
      [[1, 2], [7], [0, 0]]
    = Except.ok (some [[], [7]]) := by
  with_unfolding_all decide

/-- C6, amended: with `drop_empty=True`, a Pull is suppressed exactly when
the derived tuple has at least one entry and every entry is empty — the
retention mask must empty every `apply_to`-governed position AND every
pass-through position must be empty as well (equivalently: the
`drop_empty=False` configuration would emit a non-zero-arity tuple all of
whose entries are empty). In particular a Pull with a non-empty governed
position is always emitted, a non-empty pass-through position always
prevents suppression, and on a zero-arity derived tuple the guard itself
raises (`max()` of an empty generator) rather than suppressing. -/
theorem rsampler_drop_empty_iff (wi : Int) (apply_to : Option (List Nat))
    (dw cb : Bool) (variates : List ℚ) (pull : List (List ℚ)) :
    rsamplerStep wi apply_to dw cb true variates pull = Except.ok none
    ↔ ∃ d, rsamplerStep wi apply_to dw cb false variates pull
          = Except.ok (some d) ∧ d ≠ [] ∧ ∀ x ∈ d, x = [] := by
  unfold rsamplerStep
  cases hw : pyIndex pull wi with
  | error e => simp [hw]
  | ok weights =>
    cases hm : _sample_mask cb variates weights with
    | error e => simp [hw, hm]
    | ok mask =>
      cases hp2 : (if dw then tuple_remove pull wi else Except.ok pull) with
      | error e => simp [hw, hm, hp2]
      | ok pull2 =>
        simp only [hw, hm, hp2]
        exact drop_branch_iff _

/-- C10: on every tuple, inserting any value at any position `p` in the range
`-(len+1) ≤ p ≤ len` and then removing at the same position restores the
original tuple, and indexing the intermediate tuple at `p` finds the inserted
value — `tuple_insert` and `tuple_remove` share negative-index semantics. -/
theorem tuple_insert_remove_inverse {α : Type} (t : List α) (v : α) (p : Int)
    (h1 : -((t.length : Int) + 1) ≤ p) (h2 : p ≤ (t.length : Int)) :
    tuple_remove (tuple_insert t v p) p = Except.ok t
    ∧ pyIndex (tuple_insert t v p) p = Except.ok v := by
  obtain ⟨k, hkval, hk⟩ :
      ∃ k : Nat, (k : Int) = (if p < 0 then (t.length : Int) + p + 1 else p)
        ∧ k ≤ t.length := by
    by_cases hp : p < 0
    · exact ⟨((t.length : Int) + p + 1).toNat, by rw [if_pos hp]; omega, by omega⟩
    · exact ⟨p.toNat, by rw [if_neg hp]; omega, by omega⟩
  have hins : tuple_insert t v p = t.take k ++ v :: t.drop k := by
    simp only [tuple_insert, pyListInsert]
    by_cases hp : p < 0
    · rw [if_pos hp] at hkval
      rw [if_pos hp, if_pos (show (0 : Int) ≤ (t.length : Int) + p + 1 by omega)]
      have hmin : min ((t.length : Int) + p + 1).toNat t.length = k := by omega
      rw [hmin]
    · rw [if_neg hp] at hkval
      rw [if_neg hp, if_pos (show (0 : Int) ≤ p by omega)]
      have hmin : min p.toNat t.length = k := by omega
      rw [hmin]
  rw [hins]
  have hlen : (t.take k ++ v :: t.drop k).length = t.length + 1 := by
    simp only [List.length_append, List.length_cons, List.length_take,
      List.length_drop]
    omega
  constructor
  · simp only [tuple_remove, hlen]
    have heff : (if p < 0 then p + ((t.length + 1 : Nat) : Int) else p)
        = (k : Int) := by
      by_cases hp : p < 0
      · rw [if_pos hp] at hkval ⊢; push_cast; omega
      · rw [if_neg hp] at hkval ⊢; omega
    rw [heff,
      if_pos (show (0 : Int) ≤ (k : Int) ∧ (k : Int) < ((t.length + 1 : Nat) : Int)
        by constructor <;> [omega; (push_cast; omega)])]
    rw [Int.toNat_natCast]
    exact congrArg Except.ok (remove_insert_at t v k hk)
  · simp only [pyIndex, hlen]
    have heff : (if p < 0 then p + ((t.length + 1 : Nat) : Int) else p)
        = (k : Int) := by
      by_cases hp : p < 0
      · rw [if_pos hp] at hkval ⊢; push_cast; omega
      · rw [if_neg hp] at hkval ⊢; omega
    rw [heff, if_pos (show (0 : Int) ≤ (k : Int) by omega), Int.toNat_natCast,
      getElem_insert_at t v k hk]

/-- C10, witness: the round trip at `t = (1,2,3)`, `v = 9`, `p = -2`. -/
theorem tuple_insert_remove_inverse_witness :
    (-((([1, 2, 3] : List Nat).length : Int) + 1) ≤ (-2 : Int)
      ∧ (-2 : Int) ≤ (([1, 2, 3] : List Nat).length : Int))
    ∧ (tuple_remove (tuple_insert ([1, 2, 3] : List Nat) 9 (-2)) (-2)
          = Except.ok [1, 2, 3]
        ∧ pyIndex (tuple_insert ([1, 2, 3] : List Nat) 9 (-2)) (-2)
          = Except.ok 9) :=
  ⟨by decide, tuple_insert_remove_inverse [1, 2, 3] 9 (-2) (by decide) (by decide)⟩

end Writ
